import Mathlib

/-!
Verification of the AI-Video-Automation repository's audio/video pipeline.

The Python sources are shallowly embedded:
* audio buffers `(y, sr)` become `List ℝ × ℕ` (sample list, sample rate);
* numpy 1-D slicing, slice assignment and broadcasting are modelled by
  `pyIdx` / `pySlice` / `pyAssign` / `bMul`, with a failing broadcast
  (a numpy `ValueError`) modelled as `Option.none`;
* Python's `int()` truncation toward zero on a float becomes `pyInt` on `ℚ`;
* floating-point sample arithmetic becomes exact real arithmetic (`ℝ`),
  with `10 ** (db/20)` as `Real.rpow`;
* external library calls (librosa's time-stretch, moviepy's loaders and
  encoders) are parameters of the embedding, fallible ones in `Except`.
-/

/-- Python `int()` applied to a rational float value: truncation toward zero. -/
def pyInt (q : ℚ) : ℤ :=
  if q < 0 then ⌈q⌉ else ⌊q⌋

/-- Normalisation of a Python/numpy slice index against a list of length
`len`: negative indices count from the end, and indices are clamped into
`[0, len]`. -/
def pyIdx (len : ℕ) (i : ℤ) : ℕ :=
  if i < 0 then ((len : ℤ) + i).toNat else min i.toNat len

/-- Python slice `l[a:b]` (step 1). -/
def pySlice {α : Type} (l : List α) (a b : ℤ) : List α :=
  (l.take (pyIdx l.length b)).drop (pyIdx l.length a)

/-- numpy 1-D element-wise product with broadcasting: defined when the two
lengths agree or one of them is `1`; otherwise the operation raises
(`none`). -/
def bMul (xs ys : List ℝ) : Option (List ℝ) :=
  if xs.length = ys.length then some (List.zipWith (fun a b => a * b) xs ys)
  else if xs.length = 1 then some (ys.map (fun b => xs.headD 0 * b))
  else if ys.length = 1 then some (xs.map (fun a => a * ys.headD 0))
  else none

/-- numpy slice assignment `l[a:b] = v`: succeeds when `v` has exactly the
slice's length, or length `1` (broadcast fill); otherwise raises (`none`). -/
def pyAssign (l : List ℝ) (a b : ℤ) (v : List ℝ) : Option (List ℝ) :=
  let na := pyIdx l.length a
  let nb := max na (pyIdx l.length b)
  if v.length = nb - na then some (l.take na ++ v ++ l.drop nb)
  else if v.length = 1 then
    some (l.take na ++ List.replicate (nb - na) (v.headD 0) ++ l.drop nb)
  else none

/-- `np.linspace a b num` (with `endpoint=True`, the default). -/
noncomputable def linspace (a b : ℝ) (num : ℕ) : List ℝ :=
  if num = 1 then [a]
  else (List.range num).map
    (fun i : ℕ => a + (i : ℝ) * (b - a) / ((num : ℝ) - 1))

/-- `np.clip x (-1) 1`. -/
noncomputable def clip (x : ℝ) : ℝ := max (-1) (min 1 x)

namespace AudioEnhancer

/-- An in-memory audio buffer: sample list and sample rate, as produced by
`librosa.load` and threaded through every operation with `save=False`. -/
abbrev Buf := List ℝ × ℕ

/-- `AudioEnhancer.increase_volume` (the `save=False` path):
`y_out = np.clip(y * 10 ** (db_gain / 20), -1.0, 1.0)`, same rate. -/
noncomputable def increase_volume (b : Buf) (db_gain : ℝ) : Buf :=
  (b.1.map (fun s => clip (s * (10 : ℝ) ^ (db_gain / 20))), b.2)

/-- `AudioEnhancer.decrease_volume` (the `save=False` path):
`y_out = np.clip(y * 10 ** (db_reduce / 20), -1.0, 1.0)`, same rate. -/
noncomputable def decrease_volume (b : Buf) (db_reduce : ℝ) : Buf :=
  (b.1.map (fun s => clip (s * (10 : ℝ) ^ (db_reduce / 20))), b.2)

/-- `AudioEnhancer.fade_in` (the `save=False` path):
`n = int(sr * duration); y[:n] = y[:n] * np.linspace(0.0, 1.0, n)`.
A negative `n` makes `np.linspace` raise; a broadcast mismatch in the
product or the assignment raises; both are `none`. -/
noncomputable def fade_in (b : Buf) (duration : ℚ) : Option Buf :=
  let n : ℤ := pyInt ((b.2 : ℚ) * duration)
  if n < 0 then none
  else do
    let prod ← bMul (pySlice b.1 0 n) (linspace 0 1 n.toNat)
    let y2 ← pyAssign b.1 0 n prod
    pure (y2, b.2)

/-- `AudioEnhancer.fade_out` (the `save=False` path):
`n = int(sr * duration); y[-n:] = y[-n:] * np.linspace(1.0, 0.0, n)`. -/
noncomputable def fade_out (b : Buf) (duration : ℚ) : Option Buf :=
  let n : ℤ := pyInt ((b.2 : ℚ) * duration)
  if n < 0 then none
  else do
    let prod ← bMul (pySlice b.1 (-n) b.1.length) (linspace 1 0 n.toNat)
    let y2 ← pyAssign b.1 (-n) b.1.length prod
    pure (y2, b.2)

/-- `AudioEnhancer.speed_change` (the `save=False` path):
`y_fast = librosa.effects.time_stretch(y, rate=factor)`, same sample rate.
The external time-stretch is a parameter `stretch`. -/
def speed_change (stretch : List ℝ → ℝ → List ℝ) (b : Buf) (factor : ℝ) :
    Buf :=
  (stretch b.1 factor, b.2)

/-- `AudioEnhancer.reverse` (the `save=False` path): `y_rev = y[::-1]`. -/
def reverse (b : Buf) : Buf := (b.1.reverse, b.2)

/-- `AudioEnhancer.cut` (the `save=False` path):
`start_idx = int(start * sr); end_idx = int(end * sr) if end else len(y);
y_cut = y[start_idx:end_idx]`.  Note the truthiness test: `end = None`
and `end = 0.0` both take the `len(y)` branch. -/
def cut (b : Buf) (start : ℚ) (endq : Option ℚ) : Buf :=
  let startIdx : ℤ := pyInt (start * (b.2 : ℚ))
  let endIdx : ℤ :=
    match endq with
    | none => (b.1.length : ℤ)
    | some e => if e = 0 then (b.1.length : ℤ) else pyInt (e * (b.2 : ℚ))
  (pySlice b.1 startIdx endIdx, b.2)

/-- `np.sqrt(np.mean(y ** 2))` on a buffer's sample list. -/
noncomputable def rms (y : List ℝ) : ℝ :=
  Real.sqrt ((y.map (fun s => s ^ 2)).sum / y.length)

/-- `AudioEnhancer.normalize` (the `save=False` path):
`current_db = 20 * log10(rms + 1e-6); gain = target_db - current_db;
y_norm = np.clip(y * 10 ** (gain / 20), -1.0, 1.0)`, same rate. -/
noncomputable def normalize (b : Buf) (target_db : ℝ) : Buf :=
  (b.1.map (fun s => clip (s *
      (10 : ℝ) ^ ((target_db - 20 * Real.logb 10 (rms b.1 + 1 / 1000000))
        / 20))),
   b.2)

/-- One pipeline action of `apply_multiple`: takes the running buffer and
the optional numeric argument; `Except.error` models a raised exception
(which `apply_multiple` does not catch), `Except.ok none` models an action
that returned a falsy result (the `if not res` branch), `Except.ok (some b)`
a normal result. -/
abbrev Action := Buf → Option ℚ → Except Unit (Option Buf)

/-- The loop of `AudioEnhancer.apply_multiple` (the `save=False` path),
over an attribute table `table` standing for `getattr(self, name, None)`:
for each `(name, val)` look the action up (unknown → return `None`), call
it (`fn(temp, save=False)` or `fn(temp, val, save=False)`), return `None`
on a falsy result, and otherwise feed the result to the rest of the list. -/
def applyMultiple (table : String → Option Action) :
    List (String × Option ℚ) → Buf → Except Unit (Option Buf)
  | [], b => .ok (some b)
  | (name, val) :: rest, b =>
    match table name with
    | none => .ok none
    | some fn =>
      match fn b val with
      | .error e => .error e
      | .ok none => .ok none
      | .ok (some res) => applyMultiple table rest res

end AudioEnhancer

namespace VideoAudioMerger

/-- `loop_count = int(v_dur // a_dur) + 1` in `VideoAudioMerger.merge`
(`//` is float floor division and both durations are positive there). -/
def loop_count (v a : ℚ) : ℤ := Int.floor (v / a) + 1

/-- Duration of `concatenate_audioclips([audio] * k)`: the sum of the
copies' durations. -/
def concatDur (a : ℚ) (k : ℤ) : ℚ := (k : ℚ) * a

/-- Duration of moviepy's `clip.subclip(s, e)`: `e - s`, independent of the
source clip's duration `d` (moviepy sets the new duration attribute from
the two cut points alone). -/
def subclipDur (d s e : ℚ) : ℚ := e - s

/-- The duration of the audio track after the `--- Sync Durations ---`
block of `VideoAudioMerger.merge`, as a function of the video duration `v`
and the audio duration `a`. -/
def reconciledAudioDur (v a : ℚ) : ℚ :=
  if a < v then subclipDur (concatDur a (loop_count v a)) 0 v
  else if v < a then subclipDur a 0 v
  else a

/-- The external moviepy collaborators of `VideoAudioMerger.merge`; the
fallible ones (loaders, concatenation, subclip, encoding) live in
`Except`. `V` is the video-clip type, `A` the audio-clip type. -/
structure Env (V A : Type) where
  loadVideo : Except String V
  loadAudio : Except String A
  vdur : V → ℚ
  adur : A → ℚ
  concatLoop : A → ℤ → Except String A
  subclip : A → ℚ → ℚ → Except String A
  setAudio : V → A → V
  write : V → Except String String

/-- The body of the `try:` block of `VideoAudioMerger.merge`: load both
inputs, reconcile durations (loop-and-trim, trim, or leave unchanged),
attach the audio, and either encode (`save=True`, returning the path) or
return the in-memory clip. -/
def mergeBody {V A : Type} (env : Env V A) (save : Bool) :
    Except String (V ⊕ String) := do
  let video ← env.loadVideo
  let audio0 ← env.loadAudio
  let vd := env.vdur video
  let ad := env.adur audio0
  let audio ←
    if ad < vd then do
      let looped ← env.concatLoop audio0 (loop_count vd ad)
      env.subclip looped 0 vd
    else if vd < ad then env.subclip audio0 0 vd
    else pure audio0
  let fv := env.setAudio video audio
  if save then do
    let p ← env.write fv
    pure (Sum.inr p)
  else pure (Sum.inl fv)

/-- `VideoAudioMerger.merge`: the whole body runs inside
`try: ... except Exception: return None`, so a raised error becomes
`none`. -/
def merge {V A : Type} (env : Env V A) (save : Bool) : Option (V ⊕ String) :=
  match mergeBody env save with
  | .ok r => some r
  | .error _ => none

end VideoAudioMerger

namespace VideoMerger

/-- The external collaborators of `VideoMerger.merge` (conectintro.py).
`introExists` / `mainExists` model the `os.path.exists` checks on path
inputs (for clip inputs they are vacuously true). -/
structure Env (V : Type) where
  introExists : Bool
  mainExists : Bool
  loadIntro : Except String V
  loadMain : Except String V
  normalizeClip : V → V
  crossfadeout : V → ℚ → V
  crossfadein : V → ℚ → V
  concat : List V → Except String V
  write : V → Except String String

/-- The body of the `try:` block of `VideoMerger.merge`: missing-file
checks (which `return None` directly, modelled as `ok none`), loading,
normalisation to 720p/30fps, concatenation with or without crossfade,
and encoding when `save=True`. -/
def mergeBody {V : Type} (env : Env V) (crossfade : ℚ) (save : Bool) :
    Except String (Option (V ⊕ String)) := do
  if !env.introExists then pure none
  else if !env.mainExists then pure none
  else do
    let intro ← env.loadIntro
    let main ← env.loadMain
    let intro := env.normalizeClip intro
    let main := env.normalizeClip main
    let merged ←
      if 0 < crossfade then
        env.concat [env.crossfadeout intro crossfade,
                    env.crossfadein main crossfade]
      else env.concat [intro, main]
    if save then do
      let p ← env.write merged
      pure (some (Sum.inr p))
    else pure (some (Sum.inl merged))

/-- `VideoMerger.merge`: the whole body runs inside
`try: ... except Exception: return None`. -/
def merge {V : Type} (env : Env V) (crossfade : ℚ) (save : Bool) :
    Option (V ⊕ String) :=
  match mergeBody env crossfade save with
  | .ok r => r
  | .error _ => none

end VideoMerger

/-- A concrete environment whose video loader raises: exercises the
`except` path of `VideoAudioMerger.merge`. -/
def failEnvVA : VideoAudioMerger.Env Unit Unit where
  loadVideo := .error "video load failure"
  loadAudio := .ok ()
  vdur := fun _ => 1
  adur := fun _ => 1
  concatLoop := fun a _ => .ok a
  subclip := fun a _ _ => .ok a
  setAudio := fun v _ => v
  write := fun _ => .ok "out.mp4"

/-- A concrete environment whose encoder raises: exercises the `except`
path of `VideoMerger.merge`. -/
def failEnvVM : VideoMerger.Env Unit where
  introExists := true
  mainExists := true
  loadIntro := .ok ()
  loadMain := .ok ()
  normalizeClip := fun v => v
  crossfadeout := fun v _ => v
  crossfadein := fun v _ => v
  concat := fun _ => .ok ()
  write := fun _ => .error "encode failure"

/-- A small attribute table for exercising `applyMultiple`: one normal
action, one action returning a falsy result, everything else unknown. -/
def demoTable : String → Option AudioEnhancer.Action := fun n =>
  if n = "volup" then some (fun b _ => .ok (some b))
  else if n = "nores" then some (fun _ _ => .ok none)
  else none

/-- C1: in `VideoAudioMerger.merge`, whenever the durations differ the
reconciled audio duration equals the video duration `v` exactly: for
`a < v` the audio is looped `loop_count = floor(v/a) + 1` times — enough to
cover the video (`v ≤ loop_count * a`) with at most one partial repetition
(`(loop_count - 1) * a ≤ v`) — and trimmed to `[0, v]`; for `a > v` it is
trimmed to `[0, v]`; for `a = v` it is used unmodified. -/
theorem VideoAudioMerger.duration_reconciliation (v a : ℚ)
    (ha : 0 < a) (hv : 0 < v) :
    (a < v →
      v ≤ (VideoAudioMerger.loop_count v a : ℚ) * a ∧
      ((VideoAudioMerger.loop_count v a : ℚ) - 1) * a ≤ v ∧
      VideoAudioMerger.reconciledAudioDur v a = v) ∧
    (v < a → VideoAudioMerger.reconciledAudioDur v a = v) ∧
    (a = v → VideoAudioMerger.reconciledAudioDur v a = a) := by
  have hane : a ≠ 0 := ne_of_gt ha
  refine ⟨fun hav => ⟨?_, ?_, ?_⟩, fun hva => ?_, fun hEq => ?_⟩
  · have h1 : v / a < (⌊v / a⌋ : ℚ) + 1 := Int.lt_floor_add_one (v / a)
    have h2 : v / a * a ≤ ((⌊v / a⌋ : ℚ) + 1) * a :=
      mul_le_mul_of_nonneg_right (le_of_lt h1) (le_of_lt ha)
    rw [div_mul_cancel₀ v hane] at h2
    unfold VideoAudioMerger.loop_count
    push_cast
    exact h2
  · have h1 : (⌊v / a⌋ : ℚ) ≤ v / a := Int.floor_le (v / a)
    have h2 : (⌊v / a⌋ : ℚ) * a ≤ v / a * a :=
      mul_le_mul_of_nonneg_right h1 (le_of_lt ha)
    rw [div_mul_cancel₀ v hane] at h2
    unfold VideoAudioMerger.loop_count
    push_cast
    simpa using h2
  · unfold VideoAudioMerger.reconciledAudioDur VideoAudioMerger.subclipDur
    rw [if_pos hav]
    ring
  · unfold VideoAudioMerger.reconciledAudioDur VideoAudioMerger.subclipDur
    rw [if_neg (by exact not_lt_of_lt hva), if_pos hva]
    ring
  · unfold VideoAudioMerger.reconciledAudioDur
    rw [if_neg (by simp [hEq]), if_neg (by simp [hEq])]

/-- C1 witness: at `v = 3`, `a = 2` the audio is looped
`floor(3/2) + 1 = 2` times (covering `3 ≤ 4` with at most one partial
repetition, `2 ≤ 3`) and the reconciled duration is exactly `3`. -/
theorem VideoAudioMerger.duration_reconciliation_witness :
    VideoAudioMerger.loop_count 3 2 = 2 ∧
    VideoAudioMerger.reconciledAudioDur 3 2 = 3 ∧
    VideoAudioMerger.reconciledAudioDur 2 3 = 2 := by
  refine ⟨by norm_num [VideoAudioMerger.loop_count], ?_, ?_⟩
  · exact ((VideoAudioMerger.duration_reconciliation 3 2 (by norm_num)
      (by norm_num)).1 (by norm_num)).2.2
  · exact (VideoAudioMerger.duration_reconciliation 2 3 (by norm_num)
      (by norm_num)).2.1 (by norm_num)

/-- C9: `AudioEnhancer.reverse` applied twice returns the original buffer
exactly (`y[::-1][::-1] == y`, same sample rate). -/
theorem AudioEnhancer.reverse_reverse (b : AudioEnhancer.Buf) :
    AudioEnhancer.reverse (AudioEnhancer.reverse b) = b := by
  cases b with
  | mk y sr => simp [AudioEnhancer.reverse]

/-- C3: both merge components run their whole body inside a
`try/except` that returns `None` on any failure: a raised error in any
step (loading, processing, encoding) yields `none` and never propagates,
and a non-`none` result can only come from a body that completed without
error. -/
theorem mergers_catch_all_failures {V A W : Type}
    (env : VideoAudioMerger.Env V A) (s : Bool)
    (env2 : VideoMerger.Env W) (cf : ℚ) (s2 : Bool) :
    (∀ e, VideoAudioMerger.mergeBody env s = .error e →
      VideoAudioMerger.merge env s = none) ∧
    (∀ r, VideoAudioMerger.merge env s = some r →
      VideoAudioMerger.mergeBody env s = .ok r) ∧
    (∀ e, VideoMerger.mergeBody env2 cf s2 = .error e →
      VideoMerger.merge env2 cf s2 = none) ∧
    (∀ r, VideoMerger.merge env2 cf s2 = some r →
      VideoMerger.mergeBody env2 cf s2 = .ok (some r)) := by
  refine ⟨fun e he => ?_, fun r hr => ?_, fun e he => ?_, fun r hr => ?_⟩
  · unfold VideoAudioMerger.merge
    rw [he]
  · unfold VideoAudioMerger.merge at hr
    cases h : VideoAudioMerger.mergeBody env s with
    | ok x =>
      rw [h] at hr
      cases Option.some.inj hr
      rfl
    | error e => rw [h] at hr; exact absurd hr (by simp)
  · unfold VideoMerger.merge
    rw [he]
  · unfold VideoMerger.merge at hr
    cases h : VideoMerger.mergeBody env2 cf s2 with
    | ok x =>
      rw [h] at hr
      cases x with
      | none => exact Option.noConfusion hr
      | some y =>
        cases Option.some.inj hr
        rfl
    | error e => rw [h] at hr; exact Option.noConfusion hr

/-- C3 witness: with a video loader that raises, `VideoAudioMerger.merge`
returns `none`; with an encoder that raises, `VideoMerger.merge` returns
`none`. -/
theorem mergers_catch_all_failures_witness :
    VideoAudioMerger.merge failEnvVA true = none ∧
    VideoMerger.merge failEnvVM 0 true = none := by
  constructor
  · exact (mergers_catch_all_failures failEnvVA true failEnvVM 0 true).1
      "video load failure" rfl
  · exact (mergers_catch_all_failures failEnvVA true failEnvVM 0 true).2.2.1
      "encode failure" rfl

/-- C4: `AudioEnhancer.apply_multiple` applies the named actions in list
order, feeding each result into the next; an unknown action name returns
`None` at once (the rest of the list is never consulted), and an action
whose result is falsy returns `None` at once; the empty list returns the
input buffer. -/
theorem AudioEnhancer.apply_multiple_sequencing
    (table : String → Option AudioEnhancer.Action) (name : String)
    (val : Option ℚ) (rest : List (String × Option ℚ))
    (b : AudioEnhancer.Buf) :
    (table name = none →
      AudioEnhancer.applyMultiple table ((name, val) :: rest) b = .ok none) ∧
    (∀ fn, table name = some fn → fn b val = .ok none →
      AudioEnhancer.applyMultiple table ((name, val) :: rest) b = .ok none) ∧
    (∀ fn r, table name = some fn → fn b val = .ok (some r) →
      AudioEnhancer.applyMultiple table ((name, val) :: rest) b =
        AudioEnhancer.applyMultiple table rest r) ∧
    (AudioEnhancer.applyMultiple table [] b = .ok (some b)) := by
  refine ⟨fun h => ?_, fun fn h hfn => ?_, fun fn r h hfn => ?_, rfl⟩
  · simp [AudioEnhancer.applyMultiple, h]
  · simp [AudioEnhancer.applyMultiple, h, hfn]
  · simp [AudioEnhancer.applyMultiple, h, hfn]

/-- C4 witness: with a concrete table, an unknown first action yields
`None` without looking at the rest of the list; a falsy first action does
too; and a successful single action returns its (forwarded) result. -/
theorem AudioEnhancer.apply_multiple_sequencing_witness :
    AudioEnhancer.applyMultiple demoTable
      [("unknown", none), ("volup", none)] ([], 1) = .ok none ∧
    AudioEnhancer.applyMultiple demoTable
      [("nores", none), ("volup", none)] ([], 1) = .ok none ∧
    AudioEnhancer.applyMultiple demoTable [("volup", some 1)] ([], 1) =
      .ok (some ([], 1)) := by
  refine ⟨?_, ?_, ?_⟩
  · exact (AudioEnhancer.apply_multiple_sequencing demoTable "unknown" none
      [("volup", none)] ([], 1)).1 rfl
  · exact (AudioEnhancer.apply_multiple_sequencing demoTable "nores" none
      [("volup", none)] ([], 1)).2.1 (fun _ _ => .ok none) rfl rfl
  · have h := (AudioEnhancer.apply_multiple_sequencing demoTable "volup"
      (some 1) [] ([], 1)).2.2.1 (fun b _ => .ok (some b)) ([], 1) rfl rfl
    rw [h]
    exact (AudioEnhancer.apply_multiple_sequencing demoTable "volup"
      (some 1) [] ([], 1)).2.2.2

/-- A Python slice `l[k:len(l)]` with a nonnegative lower index is a
`drop`. -/
theorem pySlice_to_end {α : Type} (l : List α) (k : ℤ) (hk : 0 ≤ k) :
    pySlice l k (l.length : ℤ) = l.drop k.toNat := by
  unfold pySlice pyIdx
  rw [if_neg (by omega), if_neg (by omega)]
  simp only [Int.toNat_natCast, min_self, List.take_length]
  rcases le_or_lt k.toNat l.length with h | h
  · rw [min_eq_left h]
  · rw [min_eq_right (le_of_lt h), List.drop_length,
      List.drop_eq_nil_of_le (le_of_lt h)]

/-- C10: `AudioEnhancer.cut` tests `end` for truthiness, so `end = 0.0`
behaves exactly like `end = None`, returning the slice from `start` to the
end of the buffer rather than an empty buffer ending at time 0. -/
theorem AudioEnhancer.cut_end_zero_truthiness (y : List ℝ) (sr : ℕ)
    (start : ℚ) :
    AudioEnhancer.cut (y, sr) start (some 0) =
      AudioEnhancer.cut (y, sr) start none ∧
    (0 ≤ start →
      AudioEnhancer.cut (y, sr) start (some 0) =
        (y.drop (pyInt (start * (sr : ℚ))).toNat, sr)) := by
  constructor
  · simp [AudioEnhancer.cut]
  · intro hstart
    have hq : ¬ (start * (sr : ℚ) < 0) := by
      push_neg
      exact mul_nonneg hstart (by positivity)
    have hk : 0 ≤ pyInt (start * (sr : ℚ)) := by
      unfold pyInt
      rw [if_neg hq]
      exact Int.floor_nonneg.mpr (not_lt.mp hq)
    simp only [AudioEnhancer.cut, if_true]
    rw [pySlice_to_end y _ hk]

/-- C10 witness: on a 3-sample buffer at rate 1, `cut` with `start = 1`
and `end = 0.0` returns the last two samples (as with `end = None`), not
an empty buffer. -/
theorem AudioEnhancer.cut_end_zero_truthiness_witness :
    AudioEnhancer.cut ([0, 0, 0], 1) 1 (some 0) = ([(0 : ℝ), 0], 1) := by
  have h := (AudioEnhancer.cut_end_zero_truthiness [0, 0, 0] 1 1).2
    (by norm_num)
  rw [h]
  norm_num [pyInt]

/-- `clip` is the identity on samples already inside `[-1, 1]`. -/
theorem clip_eq_self (x : ℝ) (h : |x| ≤ 1) : clip x = x := by
  obtain ⟨hl, hr⟩ := abs_le.mp h
  unfold clip
  rw [min_eq_right hr, max_eq_right hl]

/-- `getD` commutes with a `map` whose function fixes the default `0`. -/
theorem getD_map_zero (f : ℝ → ℝ) (hf : f 0 = 0) (l : List ℝ) (i : ℕ) :
    (l.map f).getD i 0 = f (l.getD i 0) := by
  induction l generalizing i with
  | nil => simp [hf]
  | cons a t ih =>
    cases i with
    | zero => simp
    | succ n => simpa using ih n

/-- A `map` whose function fixes every element of the list is the
identity. -/
theorem map_eq_self_of_mem {α : Type} (f : α → α) (l : List α)
    (h : ∀ x ∈ l, f x = x) : l.map f = l := by
  induction l with
  | nil => rfl
  | cons a t ih =>
    simp only [List.map_cons, h a (by simp)]
    rw [ih (fun x hx => h x (by simp [hx]))]

/-- C7: `increase_volume` and `decrease_volume` are the same operation —
no sign check distinguishes them — and each multiplies every sample by
`10 ^ (db / 20)` and clips the product to `[-1, 1]`, preserving the sample
rate. -/
theorem AudioEnhancer.volume_scales_and_clips (y : List ℝ) (sr : ℕ)
    (db : ℝ) :
    AudioEnhancer.decrease_volume (y, sr) db =
      AudioEnhancer.increase_volume (y, sr) db ∧
    (∀ i, (AudioEnhancer.increase_volume (y, sr) db).1.getD i 0 =
      max (-1) (min 1 (y.getD i 0 * (10 : ℝ) ^ (db / 20)))) ∧
    (AudioEnhancer.increase_volume (y, sr) db).2 = sr := by
  refine ⟨rfl, fun i => ?_, rfl⟩
  have h := getD_map_zero (fun s => clip (s * (10 : ℝ) ^ (db / 20)))
    (by simp [clip]) y i
  simpa [clip, AudioEnhancer.increase_volume] using h

/-- C5: `decrease_volume` with gain `g` followed by `increase_volume` with
gain `-g` reproduces the input sample exactly (in exact real arithmetic)
at every position where the input is within `[-1, 1]` and the intermediate
scaled value is not clipped. -/
theorem AudioEnhancer.volume_round_trip (y : List ℝ) (sr : ℕ) (g : ℝ)
    (i : ℕ) (h1 : |y.getD i 0| ≤ 1)
    (h2 : |y.getD i 0 * (10 : ℝ) ^ (g / 20)| ≤ 1) :
    (AudioEnhancer.increase_volume
        (AudioEnhancer.decrease_volume (y, sr) g) (-g)).1.getD i 0 =
      y.getD i 0 := by
  have hfpos : (0 : ℝ) < (10 : ℝ) ^ (g / 20) :=
    Real.rpow_pos_of_pos (by norm_num) _
  have hinv : (10 : ℝ) ^ (-g / 20) = ((10 : ℝ) ^ (g / 20))⁻¹ := by
    rw [neg_div, Real.rpow_neg (by norm_num : (0 : ℝ) ≤ 10)]
  simp only [AudioEnhancer.increase_volume, AudioEnhancer.decrease_volume]
  rw [getD_map_zero _ (by simp [clip]), getD_map_zero _ (by simp [clip]),
    clip_eq_self _ h2, hinv, mul_assoc,
    mul_inv_cancel₀ (ne_of_gt hfpos), mul_one, clip_eq_self _ h1]

/-- C5 witness: the round trip at sample `1/2` with `g = 0` (where neither
bound is active) returns exactly `1/2`. -/
theorem AudioEnhancer.volume_round_trip_witness :
    (AudioEnhancer.increase_volume
        (AudioEnhancer.decrease_volume ([(1 : ℝ) / 2], 44100) 0) (-0)
      ).1.getD 0 0 = (1 : ℝ) / 2 := by
  have h := AudioEnhancer.volume_round_trip [(1 : ℝ) / 2] 44100 0 0
    (by norm_num [abs_le])
    (by norm_num [abs_le, Real.rpow_zero])
  simpa using h

/-- The success value of the fade bind-chain always carries the rate `sr`
it was built with. -/
theorem fade_bind_snd {X : Option (List ℝ)} {F : List ℝ → Option (List ℝ)}
    {sr : ℕ} {r : AudioEnhancer.Buf}
    (h : (X.bind fun prod => (F prod).bind fun y2 => some (y2, sr)) =
      some r) : r.2 = sr := by
  obtain ⟨p, _, h2⟩ := Option.bind_eq_some'.mp h
  obtain ⟨y2, _, h3⟩ := Option.bind_eq_some'.mp h2
  cases Option.some.inj h3
  rfl

/-- C8: every `AudioEnhancer` operation called with `save=False` returns
the input's sample rate unchanged — in particular `speed_change`, whose
external time-stretch only rewrites the sample list, keeps the rate. -/
theorem AudioEnhancer.sample_rate_preserved
    (stretch : List ℝ → ℝ → List ℝ) (b : AudioEnhancer.Buf)
    (db dbr t f : ℝ) (s : ℚ) (e : Option ℚ) (d d2 : ℚ) :
    (AudioEnhancer.increase_volume b db).2 = b.2 ∧
    (AudioEnhancer.decrease_volume b dbr).2 = b.2 ∧
    (∀ r, AudioEnhancer.fade_in b d = some r → r.2 = b.2) ∧
    (∀ r, AudioEnhancer.fade_out b d2 = some r → r.2 = b.2) ∧
    (AudioEnhancer.speed_change stretch b f).2 = b.2 ∧
    (AudioEnhancer.reverse b).2 = b.2 ∧
    (AudioEnhancer.cut b s e).2 = b.2 ∧
    (AudioEnhancer.normalize b t).2 = b.2 := by
  refine ⟨rfl, rfl, ?_, ?_, rfl, rfl, rfl, rfl⟩
  · intro r hr
    simp only [AudioEnhancer.fade_in] at hr
    split at hr
    · exact absurd hr (by simp)
    · exact fade_bind_snd hr
  · intro r hr
    simp only [AudioEnhancer.fade_out] at hr
    split at hr
    · exact absurd hr (by simp)
    · exact fade_bind_snd hr

/-- C8 witness: concrete successful fades (a zero-length fade on a
1-sample buffer and on an empty buffer) keep the sample rate `1`. -/
theorem AudioEnhancer.sample_rate_preserved_witness :
    AudioEnhancer.fade_in ([(0 : ℝ)], 1) 0 = some ([0], 1) ∧
    AudioEnhancer.fade_out (([] : List ℝ), 1) 0 = some ([], 1) ∧
    (([(0 : ℝ)], (1 : ℕ)) : AudioEnhancer.Buf).2 = 1 ∧
    ((([] : List ℝ), (1 : ℕ)) : AudioEnhancer.Buf).2 = 1 := by
  have hfi : AudioEnhancer.fade_in ([(0 : ℝ)], 1) 0 = some ([0], 1) := by
    norm_num [AudioEnhancer.fade_in, pyInt, pySlice, pyIdx, bMul, pyAssign,
      linspace]
  have hfo : AudioEnhancer.fade_out (([] : List ℝ), 1) 0 =
      some ([], 1) := by
    norm_num [AudioEnhancer.fade_out, pyInt, pySlice, pyIdx, bMul, pyAssign,
      linspace]
  refine ⟨hfi, hfo, ?_, ?_⟩
  · exact (AudioEnhancer.sample_rate_preserved (fun l _ => l) ([0], 1)
      0 0 0 0 0 none 0 0).2.2.1 ([0], 1) hfi
  · exact (AudioEnhancer.sample_rate_preserved (fun l _ => l) ([], 1)
      0 0 0 0 0 none 0 0).2.2.2.1 ([], 1) hfo

/-- When the fade window `n = int(sr * duration)` strictly exceeds the
length of a buffer of at least two samples, the element-wise product
`y[:n] * fade_curve` (resp. `y[-n:] * fade_curve`) is a shape mismatch
that numpy cannot broadcast, so both fades raise. -/
theorem fade_window_overflow_aux (y : List ℝ) (sr : ℕ) (d : ℚ)
    (hlen : 2 ≤ y.length) (hn : (y.length : ℤ) < pyInt ((sr : ℚ) * d)) :
    AudioEnhancer.fade_in (y, sr) d = none ∧
    AudioEnhancer.fade_out (y, sr) d = none := by
  have h0 : (0 : ℤ) ≤ (y.length : ℤ) := Int.natCast_nonneg _
  set n := pyInt ((sr : ℚ) * d) with hdefn
  have hn0 : ¬ n < 0 := by omega
  have hlt : y.length < n.toNat := by omega
  have hcurve : ∀ a b : ℝ, (linspace a b n.toNat).length = n.toNat := by
    intro a b
    unfold linspace
    split
    · simp [*]
    · rw [List.length_map, List.length_range]
  have hslice_in : pySlice y 0 n = y := by
    unfold pySlice pyIdx
    rw [if_neg hn0, if_neg (by omega : ¬ (0 : ℤ) < 0),
      min_eq_right (by omega : y.length ≤ n.toNat), List.take_length]
    simp
  have hslice_out : pySlice y (-n) (y.length : ℤ) = y := by
    unfold pySlice pyIdx
    rw [if_neg (by omega : ¬ ((y.length : ℤ)) < 0),
      if_pos (by omega : -n < 0), Int.toNat_natCast, min_self,
      List.take_length, Int.toNat_eq_zero.mpr
        (by omega : (y.length : ℤ) + -n ≤ 0)]
    simp
  have hbm : ∀ c : List ℝ, c.length = n.toNat → bMul y c = none := by
    intro c hc
    unfold bMul
    rw [hc, if_neg (by omega), if_neg (by omega), if_neg (by omega)]
  constructor
  · simp only [AudioEnhancer.fade_in]
    rw [← hdefn, if_neg hn0, hslice_in, hbm _ (hcurve 0 1)]
    rfl
  · simp only [AudioEnhancer.fade_out]
    rw [← hdefn, if_neg hn0, hslice_out, hbm _ (hcurve 1 0)]
    rfl

/-- C2 counterexample: on a 2-sample buffer at rate 1 with duration 3 the
fade window (3 samples) exceeds the buffer, and neither `fade_in` nor
`fade_out` clamps: both fail (numpy broadcast error), contradicting the
claim that the out-of-range case is guarded. -/
theorem AudioEnhancer.fade_no_clamp_counterexample :
    AudioEnhancer.fade_in ([0, 0], 1) 3 = none ∧
    AudioEnhancer.fade_out ([0, 0], 1) 3 = none :=
  fade_window_overflow_aux [0, 0] 1 3 (by norm_num) (by norm_num [pyInt])

/-- C2 amended: `fade_in` and `fade_out` do NOT clamp the fade window:
whenever `int(sr * duration)` strictly exceeds the length of a buffer of
at least two samples, the element-wise multiply is a shape mismatch and
the operation fails rather than clamping to the buffer length. -/
theorem AudioEnhancer.fade_fails_when_window_exceeds_buffer
    (y : List ℝ) (sr : ℕ) (d : ℚ) (hlen : 2 ≤ y.length)
    (hn : (y.length : ℤ) < pyInt ((sr : ℚ) * d)) :
    AudioEnhancer.fade_in (y, sr) d = none ∧
    AudioEnhancer.fade_out (y, sr) d = none :=
  fade_window_overflow_aux y sr d hlen hn

/-- C2 amended witness: a 3-sample buffer at rate 1 with duration 5 (a
5-sample window) makes both fades fail. -/
theorem AudioEnhancer.fade_fails_when_window_exceeds_buffer_witness :
    2 ≤ ([(0 : ℝ), 0, 0]).length ∧
    (([(0 : ℝ), 0, 0]).length : ℤ) < pyInt (((1 : ℕ) : ℚ) * 5) ∧
    AudioEnhancer.fade_in ([(0 : ℝ), 0, 0], 1) 5 = none ∧
    AudioEnhancer.fade_out ([(0 : ℝ), 0, 0], 1) 5 = none := by
  refine ⟨by norm_num, by norm_num [pyInt], ?_, ?_⟩
  · exact (AudioEnhancer.fade_fails_when_window_exceeds_buffer [0, 0, 0] 1 5
      (by norm_num) (by norm_num [pyInt])).1
  · exact (AudioEnhancer.fade_fails_when_window_exceeds_buffer [0, 0, 0] 1 5
      (by norm_num) (by norm_num [pyInt])).2

/-- `normalize` of a single positive sample `[a]` at target 0 dB: the RMS
is `a`, the gain factor is `(a + 1e-6)⁻¹`, and the scaled sample is below
1, so no clipping occurs. -/
theorem normalize_single (a : ℝ) (ha : 0 < a) (sr : ℕ) :
    AudioEnhancer.normalize ([a], sr) 0 =
      ([a * (a + 1 / 1000000)⁻¹], sr) := by
  have hr : AudioEnhancer.rms [a] = a := by
    unfold AudioEnhancer.rms
    norm_num
    exact Real.sqrt_sq ha.le
  have hfac : (10 : ℝ) ^ ((0 - 20 * Real.logb 10 (a + 1 / 1000000)) / 20) =
      (a + 1 / 1000000)⁻¹ := by
    have h1 : (0 - 20 * Real.logb 10 (a + 1 / 1000000)) / 20 =
        -(Real.logb 10 (a + 1 / 1000000)) := by ring
    rw [h1, Real.rpow_neg (by norm_num : (0 : ℝ) ≤ 10),
      Real.rpow_logb (by norm_num) (by norm_num) (by positivity)]
  unfold AudioEnhancer.normalize
  rw [hr, hfac]
  simp only [List.map_cons, List.map_nil]
  have hx : |a * (a + 1 / 1000000)⁻¹| ≤ 1 := by
    rw [abs_of_pos (by positivity), ← div_eq_mul_inv,
      div_le_one (by positivity)]
    linarith
  rw [clip_eq_self _ hx]

/-- C6 counterexample: `normalize` is not idempotent in exact arithmetic:
on the one-sample buffer `[1]` at target 0 dB, the `+ 1e-6` epsilon in the
dB computation leaves the first result's RMS strictly below the target, so
a second `normalize` scales again and produces a different buffer. -/
theorem AudioEnhancer.normalize_not_idempotent_counterexample :
    AudioEnhancer.normalize (AudioEnhancer.normalize ([1], 1) 0) 0 ≠
      AudioEnhancer.normalize ([1], 1) 0 := by
  have h1 := normalize_single 1 one_pos 1
  rw [h1, one_mul]
  have h2 := normalize_single ((1 : ℝ) + 1 / 1000000)⁻¹ (by positivity) 1
  rw [h2]
  intro hEq
  have hl : ((1 : ℝ) + 1 / 1000000)⁻¹ *
      (((1 : ℝ) + 1 / 1000000)⁻¹ + 1 / 1000000)⁻¹ =
      ((1 : ℝ) + 1 / 1000000)⁻¹ := by
    have := congrArg (fun p : AudioEnhancer.Buf => p.1.headD 0) hEq
    simpa using this
  norm_num at hl

/-- C6 amended: because of the `+ 1e-6` epsilon, `normalize` reaches a
fixed point not at RMS `10^(t/20)` but at RMS `10^(t/20) - 1e-6`: a buffer
with that RMS and samples inside `[-1, 1]` is returned unchanged (the gain
factor is exactly 1), so on such buffers a second application trivially
equals the first.  Exact idempotence for arbitrary buffers fails (see the
counterexample). -/
theorem AudioEnhancer.normalize_fixed_point (y : List ℝ) (sr : ℕ) (t : ℝ)
    (hrms : AudioEnhancer.rms y = (10 : ℝ) ^ (t / 20) - 1 / 1000000)
    (hbd : ∀ s ∈ y, |s| ≤ 1) :
    AudioEnhancer.normalize (y, sr) t = (y, sr) := by
  unfold AudioEnhancer.normalize
  have hsum : AudioEnhancer.rms y + 1 / 1000000 = (10 : ℝ) ^ (t / 20) := by
    rw [hrms]; ring
  have hfac : (10 : ℝ) ^
      ((t - 20 * Real.logb 10 (AudioEnhancer.rms y + 1 / 1000000)) / 20) =
      1 := by
    rw [hsum, Real.logb_rpow (by norm_num) (by norm_num)]
    have h0 : (t - 20 * (t / 20)) / 20 = 0 := by ring
    rw [h0, Real.rpow_zero]
  rw [hfac]
  simp only [mul_one]
  rw [map_eq_self_of_mem (fun s => clip s) y
    (fun x hx => clip_eq_self x (hbd x hx))]

/-- C6 amended witness: the buffer `[999999/1000000]` has RMS exactly
`10^(0/20) - 1e-6`, and `normalize` at target 0 dB returns it unchanged. -/
theorem AudioEnhancer.normalize_fixed_point_witness :
    AudioEnhancer.rms [(999999 : ℝ) / 1000000] =
      (10 : ℝ) ^ ((0 : ℝ) / 20) - 1 / 1000000 ∧
    AudioEnhancer.normalize ([(999999 : ℝ) / 1000000], 5) 0 =
      ([(999999 : ℝ) / 1000000], 5) := by
  have hrms : AudioEnhancer.rms [(999999 : ℝ) / 1000000] =
      (10 : ℝ) ^ ((0 : ℝ) / 20) - 1 / 1000000 := by
    unfold AudioEnhancer.rms
    rw [show ((0 : ℝ) / 20) = 0 by norm_num, Real.rpow_zero]
    simp only [List.map_cons, List.map_nil, List.sum_cons, List.sum_nil,
      add_zero, List.length_cons, List.length_nil, zero_add, Nat.cast_one,
      div_one]
    rw [Real.sqrt_sq (by norm_num)]
    norm_num
  refine ⟨hrms, AudioEnhancer.normalize_fixed_point _ 5 0 hrms ?_⟩
  intro s hs
  simp only [List.mem_singleton] at hs
  rw [hs, abs_le]
  constructor <;> norm_num
